import Mathlib

/-!
# Verification of the OSC-over-TCP core (SLIP framing, OSC codec, dispatcher)

A shallow embedding of the repository's core functions, translated from
`pythonosctcp/pythonosctcp.py` (the package copy) and `pythonosctcp.py`
(the flat copy at the repository root).  Bytes are modelled as `Nat`
(each < 256), Python `bytes`/`bytearray` as `List Nat`, Python `str` as a
`List Nat` of Unicode code points, and a Python function that can raise an
exception returns `Option`.  Functions keep the source's names; where the
two source copies differ the flat copy's function carries a `_flat` suffix.
-/

/-- SLIP frame delimiter byte (source constant `SLIP_END = 0xC0`). -/
def SLIP_END : Nat := 192

/-- SLIP escape byte (source constant `SLIP_ESC = 0xDB`). -/
def SLIP_ESC : Nat := 219

/-- Escaped substitute for the delimiter (source `SLIP_ESC_END = 0xDC`). -/
def SLIP_ESC_END : Nat := 220

/-- Escaped substitute for the escape byte (source `SLIP_ESC_ESC = 0xDD`). -/
def SLIP_ESC_ESC : Nat := 221

/-- First index `i ≥ s` with `l[i] = b`, if any: the search kernel behind
Python's `bytes.find(needle, start)` for a single-byte needle. -/
def findByteFrom : List Nat → Nat → Nat → Option Nat
  | [], _, _ => none
  | x :: xs, b, 0 => if x = b then some 0 else (findByteFrom xs b 0).map (· + 1)
  | _ :: xs, b, s + 1 => (findByteFrom xs b s).map (· + 1)

/-- Python `data.find(bytes([b]), start)`: a negative `start` counts from the
end (clamped at 0), and the result is the found index or `-1`. -/
def pyFind (data : List Nat) (b : Nat) (start : Int) : Int :=
  let s : Nat := if start < 0 then ((data.length : Int) + start).toNat else start.toNat
  match findByteFrom data b s with
  | some j => (j : Int)
  | none => -1

/-- Python slicing `data[a:b]`: negative indices count from the end and both
bounds are clamped into range. -/
def pySlice (data : List Nat) (a b : Int) : List Nat :=
  let n : Int := data.length
  let a2 : Nat := (if a < 0 then max (n + a) 0 else min a n).toNat
  let b2 : Nat := (if b < 0 then max (n + b) 0 else min b n).toNat
  (data.take b2).drop a2

/-- `slip_encode` (both source copies, identical): delimiter, byte-stuffed
payload (`0xC0 ↦ 0xDB 0xDC`, `0xDB ↦ 0xDB 0xDD`), delimiter. -/
def slip_encode (data : List Nat) : List Nat :=
  SLIP_END ::
    data.flatMap (fun byte =>
      if byte = SLIP_END then [SLIP_ESC, SLIP_ESC_END]
      else if byte = SLIP_ESC then [SLIP_ESC, SLIP_ESC_ESC]
      else [byte])
    ++ [SLIP_END]

/-- `slip_decode` (both source copies, identical), translated statement by
statement from the index-based `while` loop.  In the `SLIP_ESC` branch the
source executes `i += 1`, translates the substitute byte, and then
`continue`s, which skips the loop-trailing `i += 1`: the substitute byte is
therefore visited again as a fresh input byte on the next iteration.  The
recursion below calls itself on `rest` (the list starting at the substitute
byte) to reproduce exactly that.  `none` models the `IndexError` raised by
`data[i]` when the escape byte is the final byte. -/
def slip_decode : List Nat → Option (List Nat)
  | [] => some []
  | b :: rest =>
    if b = SLIP_END then slip_decode rest
    else if b = SLIP_ESC then
      match rest with
      | [] => none
      | c :: _ =>
        if c = SLIP_ESC_END then (slip_decode rest).map (fun l => SLIP_END :: l)
        else if c = SLIP_ESC_ESC then (slip_decode rest).map (fun l => SLIP_ESC :: l)
        else slip_decode rest
    else (slip_decode rest).map (fun l => b :: l)

/-- Loop body of `process_slip_message` (package copy), with `fuel` bounding
the number of iterations.  Each iteration either removes a frame of at least
two bytes from the front of the buffer or stops, so `fuel = buffer.length`
(as used by `process_slip_message` below) always suffices. -/
def processSlipLoop : Nat → List Nat → List (List Nat) × List Nat
  | 0, buffer => ([], buffer)
  | fuel + 1, buffer =>
    if SLIP_END ∈ buffer then
      match findByteFrom buffer SLIP_END 1 with
      | some j =>
        let r := processSlipLoop fuel (buffer.drop (j + 1))
        (buffer.take (j + 1) :: r.1, r.2)
      | none => ([], buffer)
    else ([], buffer)

/-- `process_slip_message` (package copy): repeatedly search the buffer for
the next `0xC0` at or after position 1 (`end_idx = buffer.find(b'\xc0', 1) + 1`),
cut the frame `buffer[:end_idx]`, and keep the remainder for the next read. -/
def process_slip_message (buffer : List Nat) : List (List Nat) × List Nat :=
  processSlipLoop buffer.length buffer

theorem findByteFrom_some_lt {l : List Nat} {b s j : Nat}
    (h : findByteFrom l b s = some j) : j < l.length := by
  induction l generalizing s j with
  | nil => simp [findByteFrom] at h
  | cons x xs ih =>
    cases s with
    | zero =>
      by_cases hx : x = b
      · subst hx
        simp [findByteFrom] at h
        simp [← h]
      · simp [findByteFrom, hx] at h
        obtain ⟨j', hj', rfl⟩ := h
        have := ih hj'
        simp
        omega
    | succ s' =>
      simp [findByteFrom] at h
      obtain ⟨j', hj', rfl⟩ := h
      have := ih hj'
      simp
      omega

theorem findByteFrom_some_ge {l : List Nat} {b s j : Nat}
    (h : findByteFrom l b s = some j) : s ≤ j := by
  induction l generalizing s j with
  | nil => simp [findByteFrom] at h
  | cons x xs ih =>
    cases s with
    | zero => omega
    | succ s' =>
      simp [findByteFrom] at h
      obtain ⟨j', hj', rfl⟩ := h
      have := ih hj'
      omega

/-- A successful search from position 0 splits the list at the first
occurrence of `b`. -/
theorem findByteFrom_zero_some {l : List Nat} {b j : Nat}
    (h : findByteFrom l b 0 = some j) :
    ∃ front rest, l = front ++ b :: rest ∧ b ∉ front ∧ j = front.length := by
  induction l generalizing j with
  | nil => simp [findByteFrom] at h
  | cons x xs ih =>
    by_cases hx : x = b
    · subst hx
      simp [findByteFrom] at h
      exact ⟨[], xs, by simp, by simp, by simp [← h]⟩
    · simp [findByteFrom, hx] at h
      obtain ⟨j', hj', rfl⟩ := h
      obtain ⟨front, rest, hfr, hmem, hlen⟩ := ih hj'
      exact ⟨x :: front, rest, by simp [hfr], by simp [hmem, Ne.symm, hx], by simp [hlen]⟩

theorem findByteFrom_zero_none {l : List Nat} {b : Nat}
    (h : findByteFrom l b 0 = none) : b ∉ l := by
  induction l with
  | nil => simp
  | cons x xs ih =>
    by_cases hx : x = b
    · simp [findByteFrom, hx] at h
    · simp [findByteFrom, hx] at h
      simp [hx, Ne.symm hx, ih h]

/-- A successful search from position 1 splits the list after its head at the
first later occurrence of `b`. -/
theorem findByteFrom_one_some {l : List Nat} {b j : Nat}
    (h : findByteFrom l b 1 = some j) :
    ∃ x front rest, l = x :: front ++ b :: rest ∧ b ∉ front ∧ j = front.length + 1 := by
  cases l with
  | nil => simp [findByteFrom] at h
  | cons x xs =>
    simp [findByteFrom] at h
    obtain ⟨j', hj', rfl⟩ := h
    obtain ⟨front, rest, hfr, hmem, hlen⟩ := findByteFrom_zero_some hj'
    exact ⟨x, front, rest, by simp [hfr], hmem, by omega⟩

theorem findByteFrom_one_none {l : List Nat} {b : Nat}
    (h : findByteFrom l b 1 = none) : b ∉ l.tail := by
  cases l with
  | nil => simp
  | cons x xs =>
    simp [findByteFrom] at h
    cases hfx : findByteFrom xs b 0 with
    | none => simpa using findByteFrom_zero_none hfx
    | some j => simp [hfx] at h

theorem take_length_add {α : Type} (l1 l2 : List α) (n : Nat) :
    (l1 ++ l2).take (l1.length + n) = l1 ++ l2.take n := by
  induction l1 with
  | nil => simp
  | cons x xs ih => simp [Nat.succ_add, ih]

theorem drop_length_add {α : Type} (l1 l2 : List α) (n : Nat) :
    (l1 ++ l2).drop (l1.length + n) = l2.drop n := by
  induction l1 with
  | nil => simp
  | cons x xs ih => simp [Nat.succ_add, ih]

theorem processSlipLoop_spec (fuel : Nat) :
    ∀ buffer : List Nat, buffer.length ≤ fuel →
      (processSlipLoop fuel buffer).1.foldr (· ++ ·) (processSlipLoop fuel buffer).2 = buffer
      ∧ (∀ m ∈ (processSlipLoop fuel buffer).1,
          ∃ a mid, m = a :: mid ++ [SLIP_END] ∧ SLIP_END ∉ mid)
      ∧ SLIP_END ∉ (processSlipLoop fuel buffer).2.tail := by
  induction fuel with
  | zero =>
    intro buffer hlen
    have : buffer = [] := List.length_eq_zero.mp (Nat.le_zero.mp hlen)
    subst this
    simp [processSlipLoop]
  | succ fuel ih =>
    intro buffer hlen
    by_cases hmem : SLIP_END ∈ buffer
    · cases hf : findByteFrom buffer SLIP_END 1 with
      | none =>
        simp only [processSlipLoop, if_pos hmem, hf]
        refine ⟨rfl, by simp, findByteFrom_one_none hf⟩
      | some j =>
        obtain ⟨x, front, rest, hbuf, hfr, hj⟩ := findByteFrom_one_some hf
        have htake : buffer.take (j + 1) = x :: front ++ [SLIP_END] := by
          subst hbuf hj
          have : front.length + 1 + 1 = (front.length + 1) + 1 := rfl
          simp only [List.take_cons, List.cons_append]
          have h2 : (front ++ SLIP_END :: rest).take (front.length + 1) =
              front ++ (SLIP_END :: rest).take 1 := take_length_add front _ 1
          simp [h2]
        have hdrop : buffer.drop (j + 1) = rest := by
          subst hbuf hj
          simp only [List.cons_append, List.drop_succ_cons]
          have h2 : (front ++ SLIP_END :: rest).drop (front.length + 1) =
              (SLIP_END :: rest).drop 1 := drop_length_add front _ 1
          simp only [List.drop_succ_cons, List.drop_zero] at h2
          exact h2
        have hrest : rest.length ≤ fuel := by
          have : buffer.length = front.length + 2 + rest.length := by
            subst hbuf; simp; omega
          omega
        obtain ⟨ihfold, ihframes, ihrest⟩ := ih rest hrest
        simp only [processSlipLoop, if_pos hmem, hf, hdrop]
        refine ⟨?_, ?_, ihrest⟩
        · simp only [List.foldr_cons, ihfold, htake]
          subst hbuf; simp
        · intro m hm
          rcases List.mem_cons.mp hm with hm | hm
          · exact ⟨x, front, by rw [hm]; exact htake, hfr⟩
          · exact ihframes m hm
    · simp only [processSlipLoop, if_neg hmem]
      exact ⟨rfl, by simp, fun hc => hmem (List.mem_of_mem_tail hc)⟩

/-- C3: the SLIP round trip fails on the very inputs the claim singles out.
Encoding `[0xC0]` yields `C0 DB DC C0`; in `slip_decode` the `continue`
after the escape translation skips the shared `i += 1`, so the substitute
byte `0xDC` is processed a second time as a literal: the decoder returns
`[0xC0, 0xDC]`, not the original `[0xC0]`. -/
theorem slip_roundtrip_violated :
    slip_encode [SLIP_END] = [SLIP_END, SLIP_ESC, SLIP_ESC_END, SLIP_END]
    ∧ slip_decode (slip_encode [SLIP_END]) = some [SLIP_END, SLIP_ESC_END]
    ∧ some [SLIP_END, SLIP_ESC_END] ≠ some [SLIP_END] := by
  refine ⟨by decide, by decide, by decide⟩

/-- Round trip restricted to payloads free of the two special bytes: on such
payloads no escape pair is ever produced, and decoding inverts encoding.
(Supporting fact for C3: the failure is exactly about `0xC0`/`0xDB`.) -/
theorem slip_roundtrip_plain (data : List Nat)
    (h : ∀ b ∈ data, b ≠ SLIP_END ∧ b ≠ SLIP_ESC) :
    slip_decode (slip_encode data) = some data := by
  have body : ∀ l : List Nat, (∀ b ∈ l, b ≠ SLIP_END ∧ b ≠ SLIP_ESC) →
      slip_decode (l ++ [SLIP_END]) = some l := by
    intro l
    induction l with
    | nil => intro _; decide
    | cons x xs ih =>
      intro hl
      obtain ⟨hx, hxs⟩ := List.forall_mem_cons.mp hl
      simp [slip_decode, hx.1, hx.2, ih hxs]
  have hflat : data.flatMap (fun byte =>
      if byte = SLIP_END then [SLIP_ESC, SLIP_ESC_END]
      else if byte = SLIP_ESC then [SLIP_ESC, SLIP_ESC_ESC]
      else [byte]) = data := by
    induction data with
    | nil => rfl
    | cons x xs ih =>
      obtain ⟨hx, hxs⟩ := List.forall_mem_cons.mp h
      simp only [List.flatMap_cons, if_neg hx.1, if_neg hx.2, ih hxs,
        List.singleton_append]
  have : slip_encode data = SLIP_END :: (data ++ [SLIP_END]) := by
    simp [slip_encode, hflat]
  rw [this]
  have hne : SLIP_END ≠ SLIP_ESC := by decide
  simp only [slip_decode, if_pos rfl]
  exact body data h

/-- Witness for `slip_roundtrip_plain` at a concrete payload. -/
theorem slip_roundtrip_plain_witness :
    (∀ b ∈ [1, 2, 3], b ≠ SLIP_END ∧ b ≠ SLIP_ESC)
    ∧ slip_decode (slip_encode [1, 2, 3]) = some [1, 2, 3] :=
  ⟨by decide, slip_roundtrip_plain [1, 2, 3] (by decide)⟩

/-- C8 counterexample: on the undefined escape sequence `0xDB 0x41` the
decoder does not fail at all — it silently drops the escape byte and keeps
`0x41`, returning a normal value. -/
theorem slip_decode_undefined_escape_no_error :
    slip_decode [SLIP_ESC, 65] = some [65] := by decide

/-- C8 amended: when the escape byte is followed by anything other than the
two defined substitutes, `slip_decode` raises no error; the escape byte is
dropped and scanning resumes at the following byte, which is then treated
as a fresh input byte. -/
theorem slip_decode_undefined_escape_dropped (c : Nat) (rest : List Nat)
    (h1 : c ≠ SLIP_ESC_END) (h2 : c ≠ SLIP_ESC_ESC) :
    slip_decode (SLIP_ESC :: c :: rest) = slip_decode (c :: rest) := by
  have h1' : c ≠ 220 := h1
  have h2' : c ≠ 221 := h2
  simp [slip_decode, SLIP_END, SLIP_ESC, SLIP_ESC_END, SLIP_ESC_ESC, h1', h2']

/-- Witness for `slip_decode_undefined_escape_dropped`. -/
theorem slip_decode_undefined_escape_dropped_witness :
    (66 : Nat) ≠ SLIP_ESC_END ∧ (66 : Nat) ≠ SLIP_ESC_ESC
    ∧ slip_decode [SLIP_ESC, 66, 7] = slip_decode [66, 7] :=
  ⟨by decide, by decide,
    slip_decode_undefined_escape_dropped 66 [7] (by decide) (by decide)⟩

/-- C9: a SLIP-encoded frame starts and ends with the sentinel `0xC0` and
contains no sentinel anywhere in its interior (the escape pairs `DB DC` /
`DB DD` are sentinel-free). -/
theorem slip_encode_sentinel_only_at_ends (data : List Nat) :
    (slip_encode data).head? = some SLIP_END
    ∧ (slip_encode data).getLast? = some SLIP_END
    ∧ SLIP_END ∉ (slip_encode data).tail.dropLast := by
  set body := data.flatMap (fun byte =>
    if byte = SLIP_END then [SLIP_ESC, SLIP_ESC_END]
    else if byte = SLIP_ESC then [SLIP_ESC, SLIP_ESC_ESC]
    else [byte]) with hbody
  have hshape : slip_encode data = SLIP_END :: (body ++ [SLIP_END]) := by
    simp [slip_encode, hbody]
  have hnotin : SLIP_END ∉ body := by
    rw [hbody]
    intro hc
    obtain ⟨x, hx, hmem⟩ := List.mem_flatMap.mp hc
    by_cases h1 : x = SLIP_END
    · rw [if_pos h1] at hmem
      revert hmem; decide
    · rw [if_neg h1] at hmem
      by_cases h2 : x = SLIP_ESC
      · rw [if_pos h2] at hmem
        revert hmem; decide
      · rw [if_neg h2] at hmem
        exact h1 (List.mem_singleton.mp hmem).symm
  refine ⟨by simp [hshape], ?_, ?_⟩
  · rw [hshape]
    have hassoc : (SLIP_END :: (body ++ [SLIP_END])) = (SLIP_END :: body) ++ [SLIP_END] := by
      simp
    rw [hassoc, List.getLast?_append]
    simp
  · rw [hshape]
    simp only [List.tail_cons, List.dropLast_concat]
    exact hnotin

/-- C4: frame segmentation.  For every buffer the emitted frames concatenate
(in order) with the remainder back to the buffer; every frame ends with a
sentinel that is its first sentinel at or after position 1; the remainder
contains no sentinel at or after position 1 (so no complete frame is left
behind); and on the claim's concrete input `b"\xc0AB\xc0\xc0CD\xc0"` exactly
the two frames `b"\xc0AB\xc0"`, `b"\xc0CD\xc0"` are returned with an empty
remainder. -/
theorem process_slip_message_spec :
    (∀ buffer : List Nat,
      (process_slip_message buffer).1.foldr (· ++ ·) (process_slip_message buffer).2 = buffer
      ∧ (∀ m ∈ (process_slip_message buffer).1,
          ∃ a mid, m = a :: mid ++ [SLIP_END] ∧ SLIP_END ∉ mid)
      ∧ SLIP_END ∉ (process_slip_message buffer).2.tail)
    ∧ process_slip_message [192, 65, 66, 192, 192, 67, 68, 192]
        = ([[192, 65, 66, 192], [192, 67, 68, 192]], []) := by
  constructor
  · intro buffer
    exact processSlipLoop_spec buffer.length buffer le_rfl
  · decide

/-- A Unicode code point that Python's `str.encode()` accepts: in range and
not a surrogate.  (Python strings cannot hold code points ≥ 0x110000, and
`encode()` raises `UnicodeEncodeError` on surrogates.) -/
def ValidCp (c : Nat) : Prop := c < 1114112 ∧ ¬(55296 ≤ c ∧ c < 57344)

instance : DecidablePred ValidCp := fun c => by
  unfold ValidCp
  infer_instance

/-- Standard UTF-8 encoding of one code point (the encoder behind Python's
`str.encode()`), written with `/` and `%` for the usual bit fields. -/
def utf8EncodeCp (c : Nat) : List Nat :=
  if c < 128 then [c]
  else if c < 2048 then [192 + c / 64, 128 + c % 64]
  else if c < 65536 then [224 + c / 4096, 128 + c / 64 % 64, 128 + c % 64]
  else [240 + c / 262144, 128 + c / 4096 % 64, 128 + c / 64 % 64, 128 + c % 64]

/-- One step of strict UTF-8 decoding (as in Python's `bytes.decode()`):
reads one code point and returns it with the remaining bytes, rejecting
stray continuations, overlong forms, surrogates and values beyond U+10FFFF. -/
def utf8DecodeOne : List Nat → Option (Nat × List Nat)
  | [] => none
  | b :: rest =>
    if b < 128 then some (b, rest)
    else if b < 194 then none
    else if b ≤ 223 then
      match rest with
      | b2 :: r2 =>
        if 128 ≤ b2 ∧ b2 ≤ 191 then some ((b - 192) * 64 + (b2 - 128), r2) else none
      | [] => none
    else if b ≤ 239 then
      match rest with
      | b2 :: b3 :: r3 =>
        if (if b = 224 then 160 ≤ b2 ∧ b2 ≤ 191
            else if b = 237 then 128 ≤ b2 ∧ b2 ≤ 159
            else 128 ≤ b2 ∧ b2 ≤ 191) ∧ 128 ≤ b3 ∧ b3 ≤ 191 then
          some ((b - 224) * 4096 + (b2 - 128) * 64 + (b3 - 128), r3)
        else none
      | _ => none
    else if b ≤ 244 then
      match rest with
      | b2 :: b3 :: b4 :: r4 =>
        if (if b = 240 then 144 ≤ b2 ∧ b2 ≤ 191
            else if b = 244 then 128 ≤ b2 ∧ b2 ≤ 143
            else 128 ≤ b2 ∧ b2 ≤ 191) ∧ 128 ≤ b3 ∧ b3 ≤ 191 ∧ 128 ≤ b4 ∧ b4 ≤ 191 then
          some ((b - 240) * 262144 + (b2 - 128) * 4096 + (b3 - 128) * 64 + (b4 - 128), r4)
        else none
      | _ => none
    else none

/-- Strict UTF-8 decoding loop; each step consumes at least one byte, so
`fuel = l.length` (as used by `utf8Decode`) always suffices. -/
def utf8DecodeLoop : Nat → List Nat → Option (List Nat)
  | _, [] => some []
  | 0, _ :: _ => none
  | fuel + 1, b :: rest =>
    match utf8DecodeOne (b :: rest) with
    | none => none
    | some (c, rest2) => (utf8DecodeLoop fuel rest2).map (fun cs => c :: cs)

/-- Python `bytes.decode()` (strict UTF-8): `none` models `UnicodeDecodeError`. -/
def utf8Decode (l : List Nat) : Option (List Nat) := utf8DecodeLoop l.length l

/-- Decoding one encoded valid code point consumes exactly its bytes. -/
theorem utf8DecodeOne_encodeCp (c : Nat) (hc : ValidCp c) (rest : List Nat) :
    utf8DecodeOne (utf8EncodeCp c ++ rest) = some (c, rest) := by
  obtain ⟨hlt, hsur⟩ := hc
  by_cases h1 : c < 128
  · simp only [utf8EncodeCp, if_pos h1, List.cons_append, List.nil_append]
    simp only [utf8DecodeOne, if_pos h1]
  · by_cases h2 : c < 2048
    · simp only [utf8EncodeCp, if_neg h1, if_pos h2, List.cons_append, List.nil_append]
      simp only [utf8DecodeOne]
      rw [if_neg (by omega), if_neg (by omega), if_pos (by omega)]
      rw [if_pos (by omega : 128 ≤ 128 + c % 64 ∧ 128 + c % 64 ≤ 191)]
      have hv : (192 + c / 64 - 192) * 64 + (128 + c % 64 - 128) = c := by omega
      rw [hv]
    · by_cases h3 : c < 65536
      · simp only [utf8EncodeCp, if_neg h1, if_neg h2, if_pos h3, List.cons_append,
          List.nil_append]
        simp only [utf8DecodeOne]
        rw [if_neg (by omega), if_neg (by omega), if_neg (by omega), if_pos (by omega)]
        rw [if_pos ?_]
        · have hv : (224 + c / 4096 - 224) * 4096 + (128 + c / 64 % 64 - 128) * 64
              + (128 + c % 64 - 128) = c := by omega
          rw [hv]
        · refine ⟨?_, by omega, by omega⟩
          by_cases he : 224 + c / 4096 = 224
          · rw [if_pos he]
            omega
          · rw [if_neg he]
            by_cases hd : 224 + c / 4096 = 237
            · rw [if_pos hd]
              omega
            · rw [if_neg hd]
              omega
      · simp only [utf8EncodeCp, if_neg h1, if_neg h2, if_neg h3, List.cons_append,
          List.nil_append]
        simp only [utf8DecodeOne]
        rw [if_neg (by omega), if_neg (by omega), if_neg (by omega), if_neg (by omega),
          if_pos (by omega)]
        rw [if_pos ?_]
        · have hv : (240 + c / 262144 - 240) * 262144 + (128 + c / 4096 % 64 - 128) * 4096
              + (128 + c / 64 % 64 - 128) * 64 + (128 + c % 64 - 128) = c := by omega
          rw [hv]
        · refine ⟨?_, by omega, by omega, by omega⟩
          by_cases he : 240 + c / 262144 = 240
          · rw [if_pos he]
            omega
          · rw [if_neg he]
            by_cases hd : 240 + c / 262144 = 244
            · rw [if_pos hd]
              omega
            · rw [if_neg hd]
              omega

theorem utf8EncodeCp_length_pos (c : Nat) : 0 < (utf8EncodeCp c).length := by
  unfold utf8EncodeCp
  split_ifs <;> simp

/-- The decode loop inverts `flatMap utf8EncodeCp` given enough fuel. -/
theorem utf8DecodeLoop_encode (s : List Nat) : ∀ fuel : Nat,
    (∀ c ∈ s, ValidCp c) → (s.flatMap utf8EncodeCp).length ≤ fuel →
    utf8DecodeLoop fuel (s.flatMap utf8EncodeCp) = some s := by
  induction s with
  | nil =>
    intro fuel _ _
    cases fuel <;> rfl
  | cons c cs ih =>
    intro fuel h hlen
    obtain ⟨hc, hcs⟩ := List.forall_mem_cons.mp h
    rw [List.flatMap_cons] at hlen ⊢
    have hpos := utf8EncodeCp_length_pos c
    have hne : utf8EncodeCp c ++ cs.flatMap utf8EncodeCp ≠ [] := by
      intro hnil
      rw [List.append_eq_nil] at hnil
      have := hnil.1
      simp [this] at hpos
    cases fuel with
    | zero =>
      exfalso
      rw [List.length_append] at hlen
      omega
    | succ fuel =>
      obtain ⟨b, brest, hb⟩ := List.exists_cons_of_ne_nil hne
      rw [hb]
      simp only [utf8DecodeLoop]
      rw [← hb, utf8DecodeOne_encodeCp c hc]
      have hlen2 : (cs.flatMap utf8EncodeCp).length ≤ fuel := by
        rw [List.length_append] at hlen
        omega
      simp [ih fuel hcs hlen2]

/-- `bytes.decode()` inverts `str.encode()` on valid strings. -/
theorem utf8Decode_encode (s : List Nat) (h : ∀ c ∈ s, ValidCp c) :
    utf8Decode (s.flatMap utf8EncodeCp) = some s :=
  utf8DecodeLoop_encode s _ h le_rfl

/-- An all-ASCII string UTF-8-encodes to itself, byte for byte. -/
theorem ascii_flatMap (l : List Nat) (h : ∀ b ∈ l, b < 128) :
    l.flatMap utf8EncodeCp = l := by
  induction l with
  | nil => rfl
  | cons b bs ih =>
    obtain ⟨hb, hbs⟩ := List.forall_mem_cons.mp h
    rw [List.flatMap_cons, ih hbs]
    have he : utf8EncodeCp b = [b] := by
      unfold utf8EncodeCp
      rw [if_pos hb]
    rw [he]
    rfl

/-- A pure-ASCII byte sequence decodes to itself. -/
theorem utf8Decode_ascii (l : List Nat) (h : ∀ b ∈ l, b < 128) :
    utf8Decode l = some l := by
  nth_rewrite 1 [← ascii_flatMap l h]
  refine utf8Decode_encode l ?_
  intro c hc
  have := h c hc
  exact ⟨by omega, by omega⟩

/-- The UTF-8 encoding of a nonzero code point contains no zero byte. -/
theorem utf8EncodeCp_ne_zero (c : Nat) (hc : c ≠ 0) :
    ∀ b ∈ utf8EncodeCp c, b ≠ 0 := by
  intro b hb
  unfold utf8EncodeCp at hb
  split_ifs at hb <;> simp at hb <;> omega

/-- The UTF-8 encoding of a NUL-free string contains no zero byte. -/
theorem utf8Encode_ne_zero (s : List Nat) (h : ∀ c ∈ s, c ≠ 0) :
    ∀ b ∈ s.flatMap utf8EncodeCp, b ≠ 0 := by
  intro b hb
  obtain ⟨c, hcs, hbc⟩ := List.mem_flatMap.mp hb
  exact utf8EncodeCp_ne_zero c (h c hcs) b hbc

/-- A Python value of the kinds the OSC codec handles: `int`, `float`
(represented by its IEEE-754 binary32 bit pattern — the claims quantify
only over 32-bit floats, which `struct.pack('>f', ·)` carries losslessly),
`str` (a list of Unicode code points), `bool`, and `None` (which
`parse_osc_message` produces for unknown type tags).  In Python `bool` is a
subclass of `int`, so every `isinstance(x, int)` test in the source is true
for `PyVal.bool` as well. -/
inductive PyVal where
  | int (n : Int)
  | float (bits : Nat)
  | str (s : List Nat)
  | bool (b : Bool)
  | none
deriving DecidableEq, Repr

/-- `get_type_tag` (both copies, identical).  The `isinstance(arg, int)`
branch is tested first and Python booleans are instances of `int`, so
booleans receive the tag `'i'` (105) and the `'T'`/`'F'` branches of the
source are unreachable; `None` matches no branch and hits
`raise ValueError` (`none` here).  Tags: `'i'` = 105, `'f'` = 102,
`'s'` = 115. -/
def get_type_tag : PyVal → Option Nat
  | .int _ => some 105
  | .float _ => some 102
  | .str _ => some 115
  | .bool _ => some 105
  | .none => Option.none

/-- Big-endian base-256 digits of `m` (for `m < 2^32`): the byte layout of
`struct.pack` with a 4-byte big-endian format. -/
def natToBE4 (m : Nat) : List Nat :=
  [m / 16777216 % 256, m / 65536 % 256, m / 256 % 256, m % 256]

/-- `struct.pack('>i', n)`: 4 big-endian two's-complement bytes; `none`
models the `struct.error` raised outside the signed 32-bit range. -/
def packInt32 (n : Int) : Option (List Nat) :=
  if -2147483648 ≤ n ∧ n < 2147483648 then some (natToBE4 (n % 4294967296).toNat)
  else Option.none

/-- Reassembling exactly 4 big-endian bytes; `none` models the
`struct.error` raised by `struct.unpack` on a buffer that is not exactly
4 bytes long. -/
def beToNat4 : List Nat → Option Nat
  | [a, b, c, d] => some (a * 16777216 + b * 65536 + c * 256 + d)
  | _ => Option.none

/-- `struct.unpack('>i', bs)`: signed 32-bit big-endian. -/
def unpackInt32 (bs : List Nat) : Option Int :=
  (beToNat4 bs).map (fun m : Nat =>
    if m < 2147483648 then (m : Int) else (m : Int) - 4294967296)

/-- NUL padding to the next 4-byte boundary as the package copy computes
it: `x += b'\x00' * ((4 - len(x) % 4) % 4)`. -/
def pad4 (l : List Nat) : List Nat := l ++ List.replicate ((4 - l.length % 4) % 4) 0

/-- Map a possibly-raising function over a list; the first raise aborts the
whole call (Python exception propagation through a loop or `map`). -/
def mapOpt {α β : Type} (f : α → Option β) : List α → Option (List β)
  | [] => some []
  | x :: xs =>
    match f x with
    | Option.none => Option.none
    | some y => (mapOpt f xs).map (fun ys => y :: ys)

/-- Python `str.encode()`: UTF-8, raising (`none`) on surrogates or
out-of-range code points. -/
def pyEncodeStr (s : List Nat) : Option (List Nat) :=
  if ∀ c ∈ s, ValidCp c then some (s.flatMap utf8EncodeCp) else Option.none

/-- One argument's payload bytes in the package copy of
`create_osc_message`: the `isinstance(arg, int)` branch (which also catches
booleans) packs `'>i'`; floats pack `'>f'` (the 4 bytes of the stored bit
pattern); strings are encoded, NUL-terminated and padded to a 4-byte
boundary; `None` matches no `isinstance` branch and contributes nothing. -/
def argPayload : PyVal → Option (List Nat)
  | .int n => packInt32 n
  | .float bits => if bits < 4294967296 then some (natToBE4 bits) else Option.none
  | .str s => (pyEncodeStr s).map (fun bs => pad4 (bs ++ [0]))
  | .bool b => packInt32 (if b then 1 else 0)
  | .none => some []

/-- `create_osc_message` (package copy): reject an address without a
leading `'/'` (`ValueError`, modelled `none`); encode the address, append a
NUL and pad to a 4-byte boundary; build `','` (44) + type tags, NUL + pad;
then concatenate the argument payloads. -/
def create_osc_message (address : List Nat) (args : List PyVal) : Option (List Nat) :=
  if address.head? = some 47 then
    (pyEncodeStr address).bind (fun ab =>
      (mapOpt get_type_tag args).bind (fun tags =>
        (mapOpt argPayload args).map (fun blocks =>
          pad4 (ab ++ [0]) ++ pad4 (44 :: (tags ++ [0])) ++ blocks.flatten)))
  else Option.none

/-- One (argument, tag) payload step of the flat copy's
`create_osc_message`, which iterates `zip(args, type_tags)`.  A string
argument is padded with `'\0' * (4 - len(arg) % 4)` **by character count**
and only then encoded.  Tags `'T'`/`'F'` would emit the single bytes
`b'T'`/`b'F'`, but `get_type_tag` never produces them (booleans are
`isinstance`-caught as ints).  A mismatched pair (e.g. a string with tag
`'i'`) would raise `struct.error`. -/
def flatPayload : PyVal × Nat → Option (List Nat)
  | (.int n, 105) => packInt32 n
  | (.bool b, 105) => packInt32 (if b then 1 else 0)
  | (.float bits, 102) => if bits < 4294967296 then some (natToBE4 bits) else Option.none
  | (.str s, 115) => pyEncodeStr (s ++ List.replicate (4 - s.length % 4) 0)
  | (_, 84) => some [84]
  | (_, 70) => some [70]
  | _ => Option.none

/-- `create_osc_message` (flat copy at the repository root):
`address = address + '\0' * (4 - len(address) % 4)` pads by **character**
count before `.encode()`, the type-tag block is
`',' + tags + '\0' * (4 - (len(tags) + 1) % 4)` (all ASCII, written here
directly as bytes), and payloads come from `zip(args, type_tags)`. -/
def create_osc_message_flat (address : List Nat) (args : List PyVal) : Option (List Nat) :=
  if address.head? = some 47 then
    (mapOpt get_type_tag args).bind (fun tags =>
      (pyEncodeStr (address ++ List.replicate (4 - address.length % 4) 0)).bind (fun ab =>
        (mapOpt flatPayload (args.zip tags)).map (fun blocks =>
          ab ++ (44 :: tags ++ List.replicate (4 - (tags.length + 1) % 4) 0)
            ++ blocks.flatten)))
  else Option.none

/-- The argument loop of `parse_osc_message` (package copy): `'i'` (105)
and `'f'` (102) unpack `data[current_pos:current_pos + 4]`; `'s'` (115)
reads to the next NUL (`data.find(b'\0', current_pos)`) and then realigns
`current_pos` to a 4-byte boundary; `'T'` (84) / `'F'` (70) consume no
bytes; any other tag appends Python `None`.  An exception anywhere aborts
the whole parse (`none`). -/
def parseArgs (data : List Nat) : List Nat → Int → Option (List PyVal)
  | [], _ => some []
  | t :: ts, pos =>
    if t = 105 then
      match unpackInt32 (pySlice data pos (pos + 4)) with
      | Option.none => Option.none
      | some v => (parseArgs data ts (pos + 4)).map (fun l => PyVal.int v :: l)
    else if t = 102 then
      match beToNat4 (pySlice data pos (pos + 4)) with
      | Option.none => Option.none
      | some bits => (parseArgs data ts (pos + 4)).map (fun l => PyVal.float bits :: l)
    else if t = 115 then
      match utf8Decode (pySlice data pos (pyFind data 0 pos)) with
      | Option.none => Option.none
      | some s =>
        (parseArgs data ts
          (if (pyFind data 0 pos + 1) % 4 ≠ 0 then
            pyFind data 0 pos + 1 + (4 - (pyFind data 0 pos + 1) % 4)
          else pyFind data 0 pos + 1)).map (fun l => PyVal.str s :: l)
    else if t = 84 then (parseArgs data ts pos).map (fun l => PyVal.bool true :: l)
    else if t = 70 then (parseArgs data ts pos).map (fun l => PyVal.bool false :: l)
    else (parseArgs data ts pos).map (fun l => PyVal.none :: l)

/-- `parse_osc_message` (package copy).  The `try`/`except` prints and
returns `(None, None)` on any exception, modelled as `none`; otherwise the
function returns normally whatever the unchecked `find` calls produced:
`address_end = data.find(b'\0')`, `type_tag_start = data.find(b',',
address_end) + 1`, `type_tag_end = data.find(b'\0', type_tag_start)`, then
`current_pos = type_tag_end + 1` realigned to a 4-byte boundary, and the
argument loop.  A `find` miss yields `-1` and silently wraps into
Python's negative indexing, exactly as `pyFind`/`pySlice` model it. -/
def parse_osc_message (data : List Nat) : Option (List Nat × List PyVal) :=
  if data.head? = some 47 then
    match utf8Decode (pySlice data 0 (pyFind data 0 0)) with
    | Option.none => Option.none
    | some address =>
      match utf8Decode (pySlice data (pyFind data 44 (pyFind data 0 0) + 1)
          (pyFind data 0 (pyFind data 44 (pyFind data 0 0) + 1))) with
      | Option.none => Option.none
      | some type_tags =>
        (parseArgs data type_tags
          (if (pyFind data 0 (pyFind data 44 (pyFind data 0 0) + 1) + 1) % 4 ≠ 0 then
            pyFind data 0 (pyFind data 44 (pyFind data 0 0) + 1) + 1
              + (4 - (pyFind data 0 (pyFind data 44 (pyFind data 0 0) + 1) + 1) % 4)
          else pyFind data 0 (pyFind data 44 (pyFind data 0 0) + 1) + 1)).map
          (fun args => (address, args))
  else Option.none

/-- What `parse_osc_message` recovers for each serialized argument:
identical, except that a boolean was serialized through the
`isinstance(arg, int)` branch with tag `'i'` and therefore comes back as
the Python integer 1 or 0 (which compares equal to the boolean under
Python `==`). -/
def pyRound : PyVal → PyVal
  | .bool b => .int (if b then 1 else 0)
  | v => v

/-- Arguments in the claims' supported set, as representable values:
32-bit signed ints, binary32 floats, NUL-free valid strings, booleans. -/
def ValidArg : PyVal → Prop
  | .int n => -2147483648 ≤ n ∧ n < 2147483648
  | .float bits => bits < 4294967296
  | .str s => ∀ c ∈ s, ValidCp c ∧ c ≠ 0
  | .bool _ => True
  | .none => False

instance : DecidablePred ValidArg := fun v => by
  cases v <;> unfold ValidArg <;> infer_instance

/-- A sendable OSC address: starts with `'/'` (47) and is NUL-free (a NUL
inside the address would be absorbed into the wire padding). -/
def ValidAddress (a : List Nat) : Prop :=
  a.head? = some 47 ∧ ∀ c ∈ a, ValidCp c ∧ c ≠ 0

instance : DecidablePred ValidAddress := fun a => by
  unfold ValidAddress
  infer_instance

theorem pad4_length_mod4 (l : List Nat) : (pad4 l).length % 4 = 0 := by
  simp [pad4]
  omega

theorem argPayload_length_mod4 (v : PyVal) (b : List Nat) (h : argPayload v = some b) :
    b.length % 4 = 0 := by
  cases v with
  | int n =>
    simp only [argPayload, packInt32] at h
    split_ifs at h
    all_goals injection h with h
    all_goals subst h
    all_goals simp [natToBE4]
  | float bits =>
    simp only [argPayload] at h
    split_ifs at h
    all_goals injection h with h
    all_goals subst h
    all_goals simp [natToBE4]
  | str s =>
    simp only [argPayload, Option.map_eq_some'] at h
    obtain ⟨bs, _, rfl⟩ := h
    exact pad4_length_mod4 _
  | bool b =>
    simp only [argPayload, packInt32] at h
    split_ifs at h
    all_goals injection h with h
    all_goals subst h
    all_goals simp [natToBE4]
  | none =>
    simp only [argPayload] at h
    injection h with h
    subst h
    rfl

theorem mapOpt_argPayload_flatten_mod4 (args : List PyVal) :
    ∀ blocks, mapOpt argPayload args = some blocks → blocks.flatten.length % 4 = 0 := by
  induction args with
  | nil =>
    intro blocks h
    injection h with h
    subst h
    rfl
  | cons v vs ih =>
    intro blocks h
    cases hv : argPayload v with
    | none =>
      simp only [mapOpt, hv] at h
      simp at h
    | some b =>
      simp only [mapOpt, hv, Option.map_eq_some'] at h
      obtain ⟨bs, hbs, rfl⟩ := h
      have h1 := argPayload_length_mod4 v b hv
      have h2 := ih bs hbs
      simp only [List.flatten_cons, List.length_append]
      omega

/-- C2: every message the package copy of `create_osc_message` produces is
4-byte aligned (string padding is computed on encoded bytes).  The flat
copy is not: it pads string arguments by character count before UTF-8
encoding, so `create_osc_message("/a", "é")` (character count 1, UTF-8
length 2) produces a 13-byte message. -/
theorem osc_length_multiple_of_four :
    (∀ (address : List Nat) (args : List PyVal) (out : List Nat),
      create_osc_message address args = some out → out.length % 4 = 0)
    ∧ (create_osc_message_flat [47, 97] [PyVal.str [233]]).map List.length = some 13 := by
  constructor
  · intro address args out h
    unfold create_osc_message at h
    split_ifs at h with ha
    · rw [Option.bind_eq_some] at h
      obtain ⟨ab, hab, h⟩ := h
      rw [Option.bind_eq_some] at h
      obtain ⟨tags, htags, h⟩ := h
      rw [Option.map_eq_some'] at h
      obtain ⟨blocks, hblocks, rfl⟩ := h
      have h1 := pad4_length_mod4 (ab ++ [0])
      have h2 := pad4_length_mod4 (44 :: (tags ++ [0]))
      have h3 := mapOpt_argPayload_flatten_mod4 args blocks hblocks
      simp only [List.length_append]
      omega
  · decide

/-- Witness for the universally quantified half of
`osc_length_multiple_of_four` at a concrete message. -/
theorem osc_length_multiple_of_four_witness :
    create_osc_message [47, 97] [PyVal.int 7]
        = some [47, 97, 0, 0, 44, 105, 0, 0, 0, 0, 0, 7]
    ∧ ([47, 97, 0, 0, 44, 105, 0, 0, 0, 0, 0, 7] : List Nat).length % 4 = 0 :=
  ⟨by decide,
    osc_length_multiple_of_four.1 [47, 97] [PyVal.int 7] _ (by decide)⟩

/-- C7: structurally invalid buffers do not fail.  `b"/a\x00\x00"` has no
`','` type-tag marker, and `b"/ab"` has no NUL terminator for its address;
in both cases the unchecked `find()` results (-1) wrap around through
Python's negative indexing and `parse_osc_message` returns a normal value
— with fabricated `None` arguments, and in the second case a truncated
address — instead of signalling a malformed message. -/
theorem parse_osc_message_invalid_returns_normally :
    parse_osc_message [47, 97, 0, 0] = some ([47, 97], [PyVal.none, PyVal.none])
    ∧ parse_osc_message [47, 97, 98] = some ([47, 97], [PyVal.none, PyVal.none]) :=
  ⟨by decide, by decide⟩

/-- C1 counterexample: for the permitted string argument `"b\x00c"` the
round trip truncates at the embedded NUL — parsing the serialized message
yields the argument `"b"`, not the original pair. -/
theorem roundtrip_counterexample :
    (create_osc_message [47, 97] [PyVal.str [98, 0, 99]]).bind parse_osc_message
      = some ([47, 97], [PyVal.str [98]])
    ∧ some ([47, 97], [PyVal.str [98]]) ≠ some ([47, 97], [PyVal.str [98, 0, 99]]) :=
  ⟨by decide, by decide⟩

theorem findByteFrom_shift (pre l : List Nat) (b : Nat) :
    findByteFrom (pre ++ l) b pre.length = (findByteFrom l b 0).map (· + pre.length) := by
  induction pre with
  | nil =>
    simp only [List.nil_append, List.length_nil]
    cases findByteFrom l b 0 <;> simp
  | cons x xs ih =>
    have hstep : findByteFrom (x :: (xs ++ l)) b (xs.length + 1)
        = (findByteFrom (xs ++ l) b xs.length).map (· + 1) := rfl
    simp only [List.cons_append, List.length_cons, hstep, ih]
    cases findByteFrom l b 0 <;> simp
    omega

theorem findByteFrom_first (l1 l2 : List Nat) (b : Nat) (h : b ∉ l1) :
    findByteFrom (l1 ++ b :: l2) b 0 = some l1.length := by
  induction l1 with
  | nil => simp [findByteFrom]
  | cons x xs ih =>
    have hx : ¬ (x = b) := fun he => h (by simp [he])
    simp only [List.cons_append, findByteFrom, if_neg hx, List.append_eq]
    rw [ih (fun hm => h (List.mem_cons_of_mem x hm))]
    rfl

theorem pyFind_split (l1 l2 : List Nat) (b : Nat) (h : b ∉ l1) :
    pyFind (l1 ++ b :: l2) b 0 = (l1.length : Int) := by
  simp only [pyFind]
  norm_num
  rw [findByteFrom_first l1 l2 b h]

theorem pyFind_from (pre l1 l2 : List Nat) (b : Nat) (h : b ∉ l1) :
    pyFind (pre ++ (l1 ++ b :: l2)) b (pre.length : Int)
      = ((pre.length + l1.length : Nat) : Int) := by
  simp only [pyFind]
  rw [if_neg (by omega)]
  have ht : ((pre.length : Int)).toNat = pre.length := by omega
  rw [ht, findByteFrom_shift pre (l1 ++ b :: l2) b, findByteFrom_first l1 l2 b h]
  simp [Nat.add_comm]

theorem pySlice_nat (data : List Nat) (a b : Nat) (ha : a ≤ data.length)
    (hb : b ≤ data.length) :
    pySlice data (a : Int) (b : Int) = (data.take b).drop a := by
  simp only [pySlice]
  rw [if_neg (by omega), if_neg (by omega)]
  have h1 : (min (a : Int) (data.length : Int)).toNat = a := by omega
  have h2 : (min (b : Int) (data.length : Int)).toNat = b := by omega
  rw [h1, h2]

theorem pySlice_mid (pre mid tail : List Nat) :
    pySlice (pre ++ (mid ++ tail)) (pre.length : Int)
      ((pre.length + mid.length : Nat) : Int) = mid := by
  rw [pySlice_nat _ _ _ (by simp) (by simp)]
  rw [← List.append_assoc, ← List.length_append, List.take_left]
  exact List.drop_left pre mid

theorem pySlice_start (l1 l2 : List Nat) :
    pySlice (l1 ++ l2) 0 (l1.length : Int) = l1 := by
  have h := pySlice_mid [] l1 l2
  simp only [List.nil_append, List.length_nil, Nat.zero_add, Nat.cast_zero] at h
  exact h

def tagOf : PyVal → Nat
  | .int _ => 105
  | .float _ => 102
  | .str _ => 115
  | .bool _ => 105
  | .none => 0

theorem get_type_tag_eq (v : PyVal) (h : ValidArg v) :
    get_type_tag v = some (tagOf v) := by
  cases v
  · rfl
  · rfl
  · rfl
  · rfl
  · exact absurd h (by simp [ValidArg])

theorem mapOpt_get_type_tag_eq (args : List PyVal) (h : ∀ a ∈ args, ValidArg a) :
    mapOpt get_type_tag args = some (args.map tagOf) := by
  induction args with
  | nil => rfl
  | cons v vs ih =>
    obtain ⟨hv, hvs⟩ := List.forall_mem_cons.mp h
    simp only [mapOpt, get_type_tag_eq v hv, List.map_cons, ih hvs]
    rfl

def argBlock : PyVal → List Nat
  | .int n => natToBE4 (n % 4294967296).toNat
  | .float bits => natToBE4 bits
  | .str s => pad4 (s.flatMap utf8EncodeCp ++ [0])
  | .bool b => natToBE4 (if b then 1 else 0)
  | .none => []

theorem argPayload_eq (v : PyVal) (h : ValidArg v) : argPayload v = some (argBlock v) := by
  cases v with
  | int n =>
    have hn : -2147483648 ≤ n ∧ n < 2147483648 := h
    simp only [argPayload, packInt32, argBlock, if_pos hn]
  | float bits =>
    have hb : bits < 4294967296 := h
    simp only [argPayload, argBlock, if_pos hb]
  | str s =>
    have hs : ∀ c ∈ s, ValidCp c := fun c hc =>
      ((h c hc : ValidCp c ∧ c ≠ 0)).1
    simp only [argPayload, argBlock, pyEncodeStr, if_pos hs, Option.map_some']
  | bool b => cases b <;> decide
  | none => exact absurd h (by simp [ValidArg])

theorem mapOpt_argPayload_eq (args : List PyVal) (h : ∀ a ∈ args, ValidArg a) :
    mapOpt argPayload args = some (args.map argBlock) := by
  induction args with
  | nil => rfl
  | cons v vs ih =>
    obtain ⟨hv, hvs⟩ := List.forall_mem_cons.mp h
    simp only [mapOpt, argPayload_eq v hv, List.map_cons, ih hvs]
    rfl

theorem beToNat4_natToBE4 (m : Nat) (hm : m < 4294967296) :
    beToNat4 (natToBE4 m) = some m := by
  simp only [natToBE4, beToNat4]
  congr 1
  omega

theorem unpackInt32_packInt32 (n : Int) (h1 : -2147483648 ≤ n) (h2 : n < 2147483648) :
    unpackInt32 (natToBE4 (n % 4294967296).toNat) = some n := by
  have hm : (n % 4294967296).toNat < 4294967296 := by omega
  unfold unpackInt32
  rw [beToNat4_natToBE4 _ hm, Option.map_some']
  congr 1
  have hcast : (((n % 4294967296).toNat : Nat) : Int) = n % 4294967296 := by omega
  split_ifs with hlt
  · omega
  · omega

theorem align_step (p L : Nat) (hp : p % 4 = 0) :
    (if (((p + L : Nat) : Int) + 1) % 4 ≠ 0
     then ((p + L : Nat) : Int) + 1 + (4 - (((p + L : Nat) : Int) + 1) % 4)
     else ((p + L : Nat) : Int) + 1)
    = ((p + (L + 1 + (4 - (L + 1) % 4) % 4) : Nat) : Int) := by
  push_cast
  split_ifs with hc
  · omega
  · omega

theorem parseArgs_roundtrip (args : List PyVal) : ∀ pre : List Nat,
    (∀ a ∈ args, ValidArg a) → pre.length % 4 = 0 →
    parseArgs (pre ++ (args.map argBlock).flatten) (args.map tagOf) (pre.length : Int)
      = some (args.map pyRound) := by
  induction args with
  | nil =>
    intro pre _ _
    rfl
  | cons v vs ih =>
    intro pre hval hpre
    obtain ⟨hv, hvs⟩ := List.forall_mem_cons.mp hval
    simp only [List.map_cons, List.flatten_cons]
    cases v with
    | int n =>
      have hn : -2147483648 ≤ n ∧ n < 2147483648 := hv
      simp only [tagOf, argBlock, pyRound, parseArgs, if_pos rfl]
      have hlen4 : ((pre.length : Int) + 4)
          = ((pre.length + (natToBE4 (n % 4294967296).toNat).length : Nat) : Int) := by
        simp [natToBE4]
      rw [hlen4, pySlice_mid pre _ ((vs.map argBlock).flatten),
        unpackInt32_packInt32 n hn.1 hn.2]
      have hassoc : pre ++ (natToBE4 (n % 4294967296).toNat ++ (vs.map argBlock).flatten)
          = (pre ++ natToBE4 (n % 4294967296).toNat) ++ (vs.map argBlock).flatten :=
        (List.append_assoc _ _ _).symm
      have hlen' : ((pre.length + (natToBE4 (n % 4294967296).toNat).length : Nat) : Int)
          = (((pre ++ natToBE4 (n % 4294967296).toNat).length : Nat) : Int) := by
        simp
      rw [hlen', hassoc, ih (pre ++ natToBE4 (n % 4294967296).toNat) hvs
        (by simp [natToBE4]; omega)]
      rfl
    | float bits =>
      have hb : bits < 4294967296 := hv
      simp only [tagOf, argBlock, pyRound, parseArgs]
      rw [if_pos trivial]
      have hlen4 : ((pre.length : Int) + 4)
          = ((pre.length + (natToBE4 bits).length : Nat) : Int) := by
        simp [natToBE4]
      rw [hlen4, pySlice_mid pre _ ((vs.map argBlock).flatten), beToNat4_natToBE4 bits hb]
      have hassoc : pre ++ (natToBE4 bits ++ (vs.map argBlock).flatten)
          = (pre ++ natToBE4 bits) ++ (vs.map argBlock).flatten :=
        (List.append_assoc _ _ _).symm
      have hlen' : ((pre.length + (natToBE4 bits).length : Nat) : Int)
          = (((pre ++ natToBE4 bits).length : Nat) : Int) := by
        simp
      rw [hlen', hassoc, ih (pre ++ natToBE4 bits) hvs (by simp [natToBE4]; omega)]
      rfl
    | str s =>
      have hs : ∀ c ∈ s, ValidCp c ∧ c ≠ 0 := hv
      simp only [tagOf, argBlock, pyRound, parseArgs]
      rw [if_pos trivial]
      have hblock : pad4 (s.flatMap utf8EncodeCp ++ [0])
          = s.flatMap utf8EncodeCp
            ++ (0 :: List.replicate
                ((4 - ((s.flatMap utf8EncodeCp).length + 1) % 4) % 4) 0) := by
        simp [pad4, List.append_assoc]
      have h0bs : (0 : Nat) ∉ s.flatMap utf8EncodeCp := fun hmem =>
        utf8Encode_ne_zero s (fun c hc => (hs c hc).2) 0 hmem rfl
      have hdata : pre ++ (pad4 (s.flatMap utf8EncodeCp ++ [0]) ++ (vs.map argBlock).flatten)
          = pre ++ (s.flatMap utf8EncodeCp
              ++ (0 :: (List.replicate ((4 - ((s.flatMap utf8EncodeCp).length + 1) % 4) % 4) 0
                  ++ (vs.map argBlock).flatten))) := by
        rw [hblock]
        simp
      rw [hdata,
        pyFind_from pre (s.flatMap utf8EncodeCp)
          (List.replicate ((4 - ((s.flatMap utf8EncodeCp).length + 1) % 4) % 4) 0
            ++ (vs.map argBlock).flatten) 0 h0bs,
        pySlice_mid pre (s.flatMap utf8EncodeCp) _,
        utf8Decode_encode s (fun c hc => (hs c hc).1),
        align_step pre.length (s.flatMap utf8EncodeCp).length hpre]
      have hassoc : pre ++ (s.flatMap utf8EncodeCp
            ++ (0 :: (List.replicate ((4 - ((s.flatMap utf8EncodeCp).length + 1) % 4) % 4) 0
                ++ (vs.map argBlock).flatten)))
          = (pre ++ (s.flatMap utf8EncodeCp
              ++ (0 :: List.replicate ((4 - ((s.flatMap utf8EncodeCp).length + 1) % 4) % 4) 0)))
            ++ (vs.map argBlock).flatten := by
        simp
      have hlen' : ((pre.length + ((s.flatMap utf8EncodeCp).length + 1
            + (4 - ((s.flatMap utf8EncodeCp).length + 1) % 4) % 4) : Nat) : Int)
          = (((pre ++ (s.flatMap utf8EncodeCp
              ++ (0 :: List.replicate
                  ((4 - ((s.flatMap utf8EncodeCp).length + 1) % 4) % 4) 0))).length : Nat)
              : Int) := by
        simp
        omega
      have hmod : (pre ++ (s.flatMap utf8EncodeCp
            ++ (0 :: List.replicate
                ((4 - ((s.flatMap utf8EncodeCp).length + 1) % 4) % 4) 0))).length % 4 = 0 := by
        simp
        omega
      rw [hlen', hassoc, ih _ hvs hmod]
      rfl
    | bool b =>
      have hub : unpackInt32 (natToBE4 (if b then 1 else 0))
          = some (if b then 1 else 0) := by
        cases b <;> decide
      simp only [tagOf, argBlock, pyRound, parseArgs, if_pos rfl]
      have hlen4 : ((pre.length : Int) + 4)
          = ((pre.length + (natToBE4 (if b then 1 else 0)).length : Nat) : Int) := by
        simp [natToBE4]
      rw [hlen4, pySlice_mid pre _ ((vs.map argBlock).flatten), hub]
      have hassoc : pre ++ (natToBE4 (if b then 1 else 0) ++ (vs.map argBlock).flatten)
          = (pre ++ natToBE4 (if b then 1 else 0)) ++ (vs.map argBlock).flatten :=
        (List.append_assoc _ _ _).symm
      have hlen' : ((pre.length + (natToBE4 (if b then 1 else 0)).length : Nat) : Int)
          = (((pre ++ natToBE4 (if b then 1 else 0)).length : Nat) : Int) := by
        simp
      rw [hlen', hassoc, ih (pre ++ natToBE4 (if b then 1 else 0)) hvs
        (by simp [natToBE4]; omega)]
      rfl
    | none => exact absurd hv (by simp [ValidArg])

theorem tagOf_ne_zero (a : PyVal) (h : ValidArg a) : tagOf a ≠ 0 := by
  cases a <;> simp [tagOf]
  exact absurd h (by simp [ValidArg])

theorem tagOf_lt_128 (a : PyVal) : tagOf a < 128 := by
  cases a <;> simp [tagOf]

theorem align_eq (X target : Nat) (h1 : target % 4 = 0) (h2 : X + 1 <= target)
    (h3 : target < X + 5) :
    (if (((X : Nat) : Int) + 1) % 4 ≠ 0
     then ((X : Nat) : Int) + 1 + (4 - (((X : Nat) : Int) + 1) % 4)
     else ((X : Nat) : Int) + 1)
    = ((target : Nat) : Int) := by
  split_ifs <;> omega

theorem parse_concat (address : List Nat) (args : List PyVal)
    (haddr : ValidAddress address) (hargs : ∀ a ∈ args, ValidArg a) :
    parse_osc_message
      (address.flatMap utf8EncodeCp
        ++ 0 :: (List.replicate ((4 - ((address.flatMap utf8EncodeCp).length + 1) % 4) % 4) 0
        ++ (44 :: (args.map tagOf
        ++ 0 :: (List.replicate ((4 - ((args.map tagOf).length + 1 + 1) % 4) % 4) 0
        ++ (args.map argBlock).flatten)))))
      = some (address, args.map pyRound) := by
  obtain ⟨hhead, hcps⟩ := haddr
  obtain ⟨t, ht⟩ : ∃ t, address = 47 :: t := by
    cases haddr_eq : address with
    | nil =>
      rw [haddr_eq] at hhead
      cases hhead
    | cons a0 t0 =>
      rw [haddr_eq] at hhead
      simp only [List.head?_cons, Option.some.injEq] at hhead
      exact ⟨t0, by rw [hhead]⟩
  have hENC : address.flatMap utf8EncodeCp = 47 :: (t.flatMap utf8EncodeCp) := by
    rw [ht, List.flatMap_cons]
    rfl
  have h0ENC : (0 : Nat) ∉ address.flatMap utf8EncodeCp := fun hmem =>
    utf8Encode_ne_zero address (fun c hc => (hcps c hc).2) 0 hmem rfl
  have h0TAGS : (0 : Nat) ∉ args.map tagOf := by
    intro hmem
    obtain ⟨a, ha, hta⟩ := List.mem_map.mp hmem
    exact tagOf_ne_zero a (hargs a ha) hta
  set D := address.flatMap utf8EncodeCp
      ++ 0 :: (List.replicate ((4 - ((address.flatMap utf8EncodeCp).length + 1) % 4) % 4) 0
      ++ (44 :: (args.map tagOf
      ++ 0 :: (List.replicate ((4 - ((args.map tagOf).length + 1 + 1) % 4) % 4) 0
      ++ (args.map argBlock).flatten)))) with hD
  have h47 : D.head? = some 47 := by
    rw [hD, hENC]
    rfl
  have hfind1 : pyFind D 0 0 = ((address.flatMap utf8EncodeCp).length : Int) := by
    rw [hD]
    exact pyFind_split _ _ _ h0ENC
  have hslice1 : pySlice D 0 ((address.flatMap utf8EncodeCp).length : Int)
      = address.flatMap utf8EncodeCp := by
    rw [hD]
    exact pySlice_start _ _
  have hdec1 : utf8Decode (address.flatMap utf8EncodeCp) = some address :=
    utf8Decode_encode address (fun c hc => (hcps c hc).1)
  have h44 : (44 : Nat) ∉ (0 :: List.replicate
      ((4 - ((address.flatMap utf8EncodeCp).length + 1) % 4) % 4) 0) := by
    simp
  have hfind2 : pyFind D 44 ((address.flatMap utf8EncodeCp).length : Int)
      = (((address.flatMap utf8EncodeCp).length
          + ((List.replicate ((4 - ((address.flatMap utf8EncodeCp).length + 1) % 4) % 4)
              0).length + 1) : Nat) : Int) := by
    rw [hD]
    rw [show address.flatMap utf8EncodeCp
        ++ 0 :: (List.replicate ((4 - ((address.flatMap utf8EncodeCp).length + 1) % 4) % 4) 0
        ++ (44 :: (args.map tagOf
        ++ 0 :: (List.replicate ((4 - ((args.map tagOf).length + 1 + 1) % 4) % 4) 0
        ++ (args.map argBlock).flatten))))
      = address.flatMap utf8EncodeCp
        ++ ((0 :: List.replicate ((4 - ((address.flatMap utf8EncodeCp).length + 1) % 4) % 4) 0)
        ++ (44 :: (args.map tagOf
        ++ 0 :: (List.replicate ((4 - ((args.map tagOf).length + 1 + 1) % 4) % 4) 0
        ++ (args.map argBlock).flatten)))) from by simp]
    exact pyFind_from _ _ _ _ h44
  have hc : ((((address.flatMap utf8EncodeCp).length
      + ((List.replicate ((4 - ((address.flatMap utf8EncodeCp).length + 1) % 4) % 4) 0).length + 1) : Nat) : Int) + 1)
      = (((address.flatMap utf8EncodeCp ++ (0 :: List.replicate ((4 - ((address.flatMap utf8EncodeCp).length + 1) % 4) % 4) 0) ++ [44]).length : Nat) : Int) := by
    simp only [List.length_append, List.length_cons, List.length_replicate,
      List.length_nil]
    push_cast
    omega
  have hfind3 : pyFind D 0 (((address.flatMap utf8EncodeCp ++ (0 :: List.replicate ((4 - ((address.flatMap utf8EncodeCp).length + 1) % 4) % 4) 0) ++ [44]).length : Nat) : Int)
      = (((address.flatMap utf8EncodeCp ++ (0 :: List.replicate ((4 - ((address.flatMap utf8EncodeCp).length + 1) % 4) % 4) 0) ++ [44]).length + (args.map tagOf).length : Nat) : Int) := by
    rw [hD]
    rw [show address.flatMap utf8EncodeCp
        ++ 0 :: (List.replicate ((4 - ((address.flatMap utf8EncodeCp).length + 1) % 4) % 4) 0
        ++ (44 :: (args.map tagOf
        ++ 0 :: (List.replicate ((4 - ((args.map tagOf).length + 1 + 1) % 4) % 4) 0
        ++ (args.map argBlock).flatten))))
      = (address.flatMap utf8EncodeCp ++ (0 :: List.replicate ((4 - ((address.flatMap utf8EncodeCp).length + 1) % 4) % 4) 0) ++ [44])
        ++ (args.map tagOf ++ 0 :: (List.replicate ((4 - ((args.map tagOf).length + 1 + 1) % 4) % 4) 0
        ++ (args.map argBlock).flatten)) from by simp]
    exact pyFind_from _ _ _ _ h0TAGS
  have hslice2 : pySlice D (((address.flatMap utf8EncodeCp ++ (0 :: List.replicate ((4 - ((address.flatMap utf8EncodeCp).length + 1) % 4) % 4) 0) ++ [44]).length : Nat) : Int)
      (((address.flatMap utf8EncodeCp ++ (0 :: List.replicate ((4 - ((address.flatMap utf8EncodeCp).length + 1) % 4) % 4) 0) ++ [44]).length + (args.map tagOf).length : Nat) : Int) = args.map tagOf := by
    rw [hD]
    rw [show address.flatMap utf8EncodeCp
        ++ 0 :: (List.replicate ((4 - ((address.flatMap utf8EncodeCp).length + 1) % 4) % 4) 0
        ++ (44 :: (args.map tagOf
        ++ 0 :: (List.replicate ((4 - ((args.map tagOf).length + 1 + 1) % 4) % 4) 0
        ++ (args.map argBlock).flatten))))
      = (address.flatMap utf8EncodeCp ++ (0 :: List.replicate ((4 - ((address.flatMap utf8EncodeCp).length + 1) % 4) % 4) 0) ++ [44])
        ++ (args.map tagOf ++ (0 :: (List.replicate ((4 - ((args.map tagOf).length + 1 + 1) % 4) % 4) 0
        ++ (args.map argBlock).flatten))) from by simp]
    exact pySlice_mid _ _ _
  have hdec2 : utf8Decode (args.map tagOf) = some (args.map tagOf) := by
    refine utf8Decode_ascii _ ?_
    intro b hb
    obtain ⟨a, ha, rfl⟩ := List.mem_map.mp hb
    exact tagOf_lt_128 a
  have hmod0 : (address.flatMap utf8EncodeCp
        ++ (0 :: (List.replicate ((4 - ((address.flatMap utf8EncodeCp).length + 1) % 4) % 4) 0
        ++ (44 :: (args.map tagOf
        ++ (0 :: List.replicate ((4 - ((args.map tagOf).length + 1 + 1) % 4) % 4) 0)))))).length % 4 = 0 := by
    simp only [List.length_append, List.length_cons, List.length_replicate,
      List.length_nil]
    omega
  have halign : (if ((((address.flatMap utf8EncodeCp ++ (0 :: List.replicate ((4 - ((address.flatMap utf8EncodeCp).length + 1) % 4) % 4) 0) ++ [44]).length + (args.map tagOf).length : Nat) : Int) + 1) % 4 ≠ 0
      then (((address.flatMap utf8EncodeCp ++ (0 :: List.replicate ((4 - ((address.flatMap utf8EncodeCp).length + 1) % 4) % 4) 0) ++ [44]).length + (args.map tagOf).length : Nat) : Int) + 1 + (4 - ((((address.flatMap utf8EncodeCp ++ (0 :: List.replicate ((4 - ((address.flatMap utf8EncodeCp).length + 1) % 4) % 4) 0) ++ [44]).length + (args.map tagOf).length : Nat) : Int) + 1) % 4)
      else (((address.flatMap utf8EncodeCp ++ (0 :: List.replicate ((4 - ((address.flatMap utf8EncodeCp).length + 1) % 4) % 4) 0) ++ [44]).length + (args.map tagOf).length : Nat) : Int) + 1)
      = (((address.flatMap utf8EncodeCp
        ++ (0 :: (List.replicate ((4 - ((address.flatMap utf8EncodeCp).length + 1) % 4) % 4) 0
        ++ (44 :: (args.map tagOf
        ++ (0 :: List.replicate ((4 - ((args.map tagOf).length + 1 + 1) % 4) % 4) 0)))))).length : Nat) : Int) := by
    refine align_eq _ _ hmod0 ?_ ?_
    · simp only [List.length_append, List.length_cons, List.length_replicate,
        List.length_nil]
      omega
    · simp only [List.length_append, List.length_cons, List.length_replicate,
        List.length_nil]
      omega
  have hshapeP : D = (address.flatMap utf8EncodeCp
        ++ (0 :: (List.replicate ((4 - ((address.flatMap utf8EncodeCp).length + 1) % 4) % 4) 0
        ++ (44 :: (args.map tagOf
        ++ (0 :: List.replicate ((4 - ((args.map tagOf).length + 1 + 1) % 4) % 4) 0)))))) ++ (args.map argBlock).flatten := by
    rw [hD]
    simp
  have hparse := parseArgs_roundtrip args (address.flatMap utf8EncodeCp
        ++ (0 :: (List.replicate ((4 - ((address.flatMap utf8EncodeCp).length + 1) % 4) % 4) 0
        ++ (44 :: (args.map tagOf
        ++ (0 :: List.replicate ((4 - ((args.map tagOf).length + 1 + 1) % 4) % 4) 0)))))) hargs hmod0
  unfold parse_osc_message
  rw [if_pos h47, hfind1, hslice1, hdec1, hfind2, hc, hfind3, hslice2, hdec2, halign]
  simp only [hshapeP, hparse, Option.map_some']

theorem create_parse_roundtrip (address : List Nat) (args : List PyVal)
    (haddr : ValidAddress address) (hargs : ∀ a ∈ args, ValidArg a) :
    (create_osc_message address args).bind parse_osc_message
      = some (address, args.map pyRound) := by
  have henc : pyEncodeStr address = some (address.flatMap utf8EncodeCp) := by
    unfold pyEncodeStr
    rw [if_pos (fun c hc => (haddr.2 c hc).1)]
  have hcreate : create_osc_message address args
      = some (pad4 (address.flatMap utf8EncodeCp ++ [0])
          ++ pad4 (44 :: (args.map tagOf ++ [0]))
          ++ (args.map argBlock).flatten) := by
    unfold create_osc_message
    rw [if_pos haddr.1, henc, mapOpt_get_type_tag_eq args hargs,
      mapOpt_argPayload_eq args hargs]
    rfl
  rw [hcreate, Option.some_bind]
  have hbridge : pad4 (address.flatMap utf8EncodeCp ++ [0])
      ++ pad4 (44 :: (args.map tagOf ++ [0]))
      ++ (args.map argBlock).flatten
      = address.flatMap utf8EncodeCp
        ++ 0 :: (List.replicate ((4 - ((address.flatMap utf8EncodeCp).length + 1) % 4) % 4) 0
        ++ (44 :: (args.map tagOf
        ++ 0 :: (List.replicate ((4 - ((args.map tagOf).length + 1 + 1) % 4) % 4) 0
        ++ (args.map argBlock).flatten)))) := by
    simp [pad4]
  rw [hbridge]
  exact parse_concat address args haddr hargs

/-- C1 amended: the serialize/deserialize round trip holds once NUL-free
strings are required.  For every address starting with `'/'` that contains
no NUL, and arguments drawn from 32-bit signed ints, binary32 floats,
NUL-free strings, and booleans, parsing the serialized message returns the
original address and arguments — with each boolean coming back as the
Python integer 1 or 0 (which compares equal to the boolean under Python
`==`, booleans being serialized through the `isinstance(arg, int)` branch
with tag `'i'`), and each float recovered by its 32-bit pattern. -/
theorem osc_roundtrip_amended (address : List Nat) (args : List PyVal)
    (haddr : ValidAddress address) (hargs : ∀ a ∈ args, ValidArg a) :
    (create_osc_message address args).bind parse_osc_message
      = some (address, args.map pyRound) :=
  create_parse_roundtrip address args haddr hargs

/-- Witness for `osc_roundtrip_amended` at a concrete message exercising
every argument kind. -/
theorem osc_roundtrip_amended_witness :
    ValidAddress [47, 97]
    ∧ (∀ a ∈ [PyVal.int 42, PyVal.str [104, 105], PyVal.bool true,
        PyVal.float 1078530011], ValidArg a)
    ∧ (create_osc_message [47, 97] [PyVal.int 42, PyVal.str [104, 105],
        PyVal.bool true, PyVal.float 1078530011]).bind parse_osc_message
      = some ([47, 97], [PyVal.int 42, PyVal.str [104, 105], PyVal.int 1,
          PyVal.float 1078530011]) :=
  ⟨by decide, by decide,
    osc_roundtrip_amended [47, 97]
      [PyVal.int 42, PyVal.str [104, 105], PyVal.bool true, PyVal.float 1078530011]
      (by decide) (by decide)⟩

/-- C6: an address-only message — the address with its NUL padding followed
by the empty type-tag string block `,\0\0\0` — parses back to that address
with an empty argument list. -/
theorem parse_address_only (address : List Nat) (msg : List Nat)
    (haddr : ValidAddress address)
    (hmsg : create_osc_message address [] = some msg) :
    parse_osc_message msg = some (address, []) := by
  have h := create_parse_roundtrip address [] haddr (by simp)
  rw [hmsg, Option.some_bind] at h
  exact h

/-- Witness for `parse_address_only` on the concrete buffer
`b"/a\x00\x00,\x00\x00\x00"`. -/
theorem parse_address_only_witness :
    ValidAddress [47, 97]
    ∧ create_osc_message [47, 97] [] = some [47, 97, 0, 0, 44, 0, 0, 0]
    ∧ parse_osc_message [47, 97, 0, 0, 44, 0, 0, 0] = some ([47, 97], []) :=
  ⟨by decide, by decide, parse_address_only [47, 97] _ (by decide) (by decide)⟩

/-- A glob character-class member: a literal character or an inclusive
range `x-y`. -/
inductive ClassItem where
  | lit (c : Nat)
  | range (lo hi : Nat)
deriving DecidableEq, Repr

/-- Character-class membership: a literal matches itself, a range `x-y`
matches `lo ≤ c ≤ hi`; an inverted range matches nothing (CPython's
`fnmatch.translate` deletes empty ranges, which match nothing in the
generated regex). -/
def classMatches (items : List ClassItem) (c : Nat) : Bool :=
  items.any fun it =>
    match it with
    | .lit x => c == x
    | .range lo hi => decide (lo ≤ c) && decide (c ≤ hi)

/-- Class-content parsing: `x-y` greedily forms a range and scanning
resumes after `y`; a hyphen that cannot form a range (at the start, at the
end, or immediately after a completed range) stays literal — mirroring the
hyphen-chunking of CPython's `fnmatch.translate`. -/
def parseItems : List Nat → List ClassItem
  | a :: 45 :: b :: rest => .range a b :: parseItems rest
  | a :: rest => .lit a :: parseItems rest
  | [] => []

/-- Locate the closing `]` (93): returns the content before it and the
remaining pattern after it, or `none` when the class is unclosed (in which
case `[` is treated as a literal, as in `fnmatch.translate`). -/
def splitAtClose : List Nat → Option (List Nat × List Nat)
  | [] => Option.none
  | 93 :: rest => some ([], rest)
  | c :: rest => (splitAtClose rest).map (fun p => (c :: p.1, p.2))

/-- Parse a bracket class starting right after `[`: an optional `!` (33)
negation, then a leading `]` counts as content, then content up to the
closing `]` — the scanning order of CPython's `fnmatch.translate`. -/
def parseClass (ps : List Nat) : Option (Bool × List ClassItem × List Nat) :=
  match ps with
  | 33 :: 93 :: t =>
    (splitAtClose t).map (fun p => (true, parseItems (93 :: p.1), p.2))
  | 33 :: t =>
    (splitAtClose t).map (fun p => (true, parseItems p.1, p.2))
  | 93 :: t =>
    (splitAtClose t).map (fun p => (false, parseItems (93 :: p.1), p.2))
  | t =>
    (splitAtClose t).map (fun p => (false, parseItems p.1, p.2))

/-- One glob-match step for `fnmatch.fnmatch` (POSIX `os.path.normcase` is
the identity, and matching is anchored at both ends): `*` (42) matches any
sequence including `/`, `?` (63) any single character, `[...]` a character
class, and every other character itself.  `fuel` bounds the recursion;
every recursive call strictly decreases `pattern.length + name.length`
(for a class, the parsed remainder is strictly shorter than the pattern),
so the initial fuel chosen by `fnmatch` below is never exhausted. -/
def matchPat : Nat → List Nat → List Nat → Bool
  | 0, _, _ => false
  | fuel + 1, pat, name =>
    match pat with
    | [] => name.isEmpty
    | 42 :: ps =>
      matchPat fuel ps name
        || (match name with
            | [] => false
            | _ :: ns => matchPat fuel (42 :: ps) ns)
    | 63 :: ps =>
      (match name with
       | [] => false
       | _ :: ns => matchPat fuel ps ns)
    | 91 :: ps =>
      (match parseClass ps with
       | Option.none =>
         (match name with
          | [] => false
          | c :: ns => c == 91 && matchPat fuel ps ns)
       | some (neg, items, ps2) =>
         (match name with
          | [] => false
          | c :: ns => (classMatches items c != neg) && matchPat fuel ps2 ns))
    | p :: ps =>
      (match name with
       | [] => false
       | c :: ns => c == p && matchPat fuel ps ns)

/-- `fnmatch.fnmatch(name, pattern)` on POSIX. -/
def fnmatch (name pattern : List Nat) : Bool :=
  matchPat (pattern.length + name.length + 1) pattern name

/-- A handler as the dispatcher sees it: an identity plus whether
`asyncio.iscoroutinefunction` holds for it. -/
structure Handler where
  id : Nat
  isCoro : Bool
deriving DecidableEq, Repr

/-- `Dispatcher.dispatch` (flat copy): iterate the handler table in
registration (insertion) order; the first pattern with
`fnmatch.fnmatch(address, pattern)` true has its handler awaited and the
method returns; only when no pattern matched is the default handler (if
set) awaited.  The result lists the invoked handlers in order. -/
def dispatch_flat : List (List Nat × Handler) → Option Handler → List Nat → List Handler
  | [], default_handler, _ =>
    match default_handler with
    | some h => [h]
    | Option.none => []
  | (pattern, handler) :: rest, default_handler, address =>
    if fnmatch address pattern then [handler]
    else dispatch_flat rest default_handler address

/-- `Dispatcher.dispatch` (package copy): each pattern maps to a list of
handlers; the first glob-matching pattern has all of its handlers awaited
in order and the method returns; the default handler only runs when no
pattern matched. -/
def dispatch_pkg : List (List Nat × List Handler) → Option Handler → List Nat → List Handler
  | [], default_handler, _ =>
    match default_handler with
    | some h => [h]
    | Option.none => []
  | (pattern, handlers) :: rest, default_handler, address =>
    if fnmatch address pattern then handlers
    else dispatch_pkg rest default_handler address

/-- Key lookup in the package dispatcher's `self.handlers` dict
(insertion-ordered, unique keys), as an association list. -/
def lookupHandlers : List (List Nat × List Handler) → List Nat → Option (List Handler)
  | [], _ => Option.none
  | (p, hs) :: rest, address =>
    if p = address then some hs else lookupHandlers rest address

/-- Replace the handler list stored under a key. -/
def updateHandlers : List (List Nat × List Handler) → List Nat → List Handler
    → List (List Nat × List Handler)
  | [], _, _ => []
  | (p, hs) :: rest, address, newhs =>
    if p = address then (p, newhs) :: rest
    else (p, hs) :: updateHandlers rest address newhs

/-- The exceptions `Dispatcher.map` (package copy) can raise. -/
inductive MapError where
  | typeError
  | keyError
deriving DecidableEq, Repr

/-- `Dispatcher.map` (package copy): after the coroutine check, the guard
`if not self.handlers[address]` *indexes* the dict, so a missing key raises
`KeyError`; for a present key the (falsy) empty list is reset and the
handler appended — net effect `hs ++ [handler]`. -/
def dispatcher_map (handlers : List (List Nat × List Handler)) (address : List Nat)
    (handler : Handler) : Except MapError (List (List Nat × List Handler)) :=
  if handler.isCoro = false then .error .typeError
  else
    match lookupHandlers handlers address with
    | Option.none => .error .keyError
    | some hs => .ok (updateHandlers handlers address (hs ++ [handler]))

/-- C5: dispatch is first-match-wins in registration order, in both source
copies.  With any prefix of non-matching patterns, the first glob-matching
pattern's handler (flat copy) or handler list (package copy) — and only
those — are invoked, whatever later entries would also have matched; in
particular with `/foo/*` and `/foo/bar` both matching `/foo/bar`, the
handler of whichever pattern was registered first is invoked, not both
(shown for either registration order). -/
theorem dispatch_first_match_wins :
    (∀ (pre post : List (List Nat × Handler)) (p : List Nat) (h : Handler)
        (d : Option Handler) (address : List Nat),
      (∀ e ∈ pre, fnmatch address e.1 = false) → fnmatch address p = true →
      dispatch_flat (pre ++ (p, h) :: post) d address = [h])
    ∧ (∀ (pre post : List (List Nat × List Handler)) (p : List Nat) (hs : List Handler)
        (d : Option Handler) (address : List Nat),
      (∀ e ∈ pre, fnmatch address e.1 = false) → fnmatch address p = true →
      dispatch_pkg (pre ++ (p, hs) :: post) d address = hs)
    ∧ dispatch_flat [([47, 102, 111, 111, 47, 42], ⟨1, true⟩),
        ([47, 102, 111, 111, 47, 98, 97, 114], ⟨2, true⟩)] Option.none
        [47, 102, 111, 111, 47, 98, 97, 114] = [⟨1, true⟩]
    ∧ dispatch_flat [([47, 102, 111, 111, 47, 98, 97, 114], ⟨2, true⟩),
        ([47, 102, 111, 111, 47, 42], ⟨1, true⟩)] Option.none
        [47, 102, 111, 111, 47, 98, 97, 114] = [⟨2, true⟩] := by
  refine ⟨?_, ?_, by decide, by decide⟩
  · intro pre
    induction pre with
    | nil =>
      intro post p h d address hpre hp
      simp [dispatch_flat, hp]
    | cons e rest ih =>
      intro post p h d address hpre hp
      obtain ⟨he, hrest⟩ := List.forall_mem_cons.mp hpre
      obtain ⟨ep, eh⟩ := e
      have he2 : fnmatch address ep = false := he
      simp only [List.cons_append, dispatch_flat]
      rw [if_neg (by simp [he2])]
      exact ih post p h d address hrest hp
  · intro pre
    induction pre with
    | nil =>
      intro post p hs d address hpre hp
      simp [dispatch_pkg, hp]
    | cons e rest ih =>
      intro post p hs d address hpre hp
      obtain ⟨he, hrest⟩ := List.forall_mem_cons.mp hpre
      obtain ⟨ep, ehs⟩ := e
      have he2 : fnmatch address ep = false := he
      simp only [List.cons_append, dispatch_pkg]
      rw [if_neg (by simp [he2])]
      exact ih post p hs d address hrest hp

/-- Witness for `dispatch_first_match_wins`: the claim's tie-break scenario
with `/foo/*` registered first. -/
theorem dispatch_first_match_wins_witness :
    (∀ e ∈ ([] : List (List Nat × Handler)),
      fnmatch [47, 102, 111, 111, 47, 98, 97, 114] e.1 = false)
    ∧ fnmatch [47, 102, 111, 111, 47, 98, 97, 114] [47, 102, 111, 111, 47, 42] = true
    ∧ dispatch_flat [([47, 102, 111, 111, 47, 42], ⟨1, true⟩),
        ([47, 102, 111, 111, 47, 98, 97, 114], ⟨2, true⟩)] Option.none
        [47, 102, 111, 111, 47, 98, 97, 114] = [⟨1, true⟩] :=
  ⟨by decide, by decide,
    dispatch_first_match_wins.1 [] [([47, 102, 111, 111, 47, 98, 97, 114], ⟨2, true⟩)]
      [47, 102, 111, 111, 47, 42] ⟨1, true⟩ Option.none
      [47, 102, 111, 111, 47, 98, 97, 114] (by decide) (by decide)⟩

/-- C10: in the package copy, mapping a coroutine handler to a pattern not
yet present in `self.handlers` raises `KeyError` — the guard
`if not self.handlers[address]` indexes the dictionary before the entry
exists — so a first registration of any new pattern never succeeds. -/
theorem dispatcher_map_new_pattern_keyerror
    (handlers : List (List Nat × List Handler)) (address : List Nat) (handler : Handler)
    (hc : handler.isCoro = true)
    (hnew : lookupHandlers handlers address = Option.none) :
    dispatcher_map handlers address handler = Except.error MapError.keyError := by
  simp [dispatcher_map, hc, hnew]

/-- Witness for `dispatcher_map_new_pattern_keyerror` on an empty table. -/
theorem dispatcher_map_new_pattern_keyerror_witness :
    (Handler.mk 1 true).isCoro = true
    ∧ lookupHandlers [] [47, 97] = Option.none
    ∧ dispatcher_map [] [47, 97] (Handler.mk 1 true) = Except.error MapError.keyError :=
  ⟨rfl, rfl, dispatcher_map_new_pattern_keyerror [] [47, 97] (Handler.mk 1 true) rfl rfl⟩
